import Mathlib

/-!
Verification of the face-recognition matching pipeline of the dementia-app
repository: the matcher (`compareFaces` / `findBestMatch` in
`src/pages/People.tsx`), the recognition poll-cycle state machine and the
overlay smoothing loop (`src/pages/ARViewer.tsx`), and the summarizer
fallback (`src/services/gemini.ts`).

Numbers (JavaScript doubles) are modelled as real numbers; fallible
computations are modelled with `Except`.
-/

namespace DementiaAR

/-! ## Matcher (src/pages/People.tsx) -/

/-- The only core-level error of the matcher: the query and a candidate
embedding have different lengths. -/
inductive FaceError
  | dimensionMismatch
deriving DecidableEq

/-- An entry of the stored-descriptor list handed to `findBestMatch`
(`Array<{ id: number; descriptor: number[] }>`). -/
structure StoredPerson where
  id : Int
  descriptor : List ℝ

/-- The running/returned best of `findBestMatch`
(`{ personId: number; similarity: number }`). -/
structure MatchResult where
  personId : Int
  similarity : ℝ

/-- Modelled from the spec: `faceapi.euclideanDistance` (library code, not in
the repository) computes the Euclidean distance of two equal-length vectors
and must fail with a `DimensionMismatch` error when the lengths differ. -/
noncomputable def euclideanDistance (d1 d2 : List ℝ) : Except FaceError ℝ :=
  if d1.length = d2.length then
    .ok (Real.sqrt (((d1.zip d2).map fun p => (p.1 - p.2) ^ 2).sum))
  else
    .error .dimensionMismatch

/-- `compareFaces(descriptor1, descriptor2)`: Euclidean distance converted to
`similarity = max(0, 1 - distance)`. A length mismatch propagates as an
exception. -/
noncomputable def compareFaces (descriptor1 descriptor2 : List ℝ) :
    Except FaceError ℝ := do
  let distance ← euclideanDistance descriptor1 descriptor2
  return max 0 (1 - distance)

/-- `const MATCH_THRESHOLD = 0.4` in `findBestMatch`. -/
def MATCH_THRESHOLD : ℝ := 0.4

/-- The `for (const person of storedPeople)` loop of `findBestMatch`: folds
the running best over the candidates, replacing it only under a strict
`similarity > bestMatch.similarity` comparison; an exception thrown by
`compareFaces` aborts the loop. -/
noncomputable def findBestLoop (detected : List ℝ) :
    List StoredPerson → MatchResult → Except FaceError MatchResult
  | [], best => .ok best
  | person :: rest, best => do
    let similarity ← compareFaces detected person.descriptor
    findBestLoop detected rest
      (if similarity > best.similarity then ⟨person.id, similarity⟩ else best)

/-- `findBestMatch(detectedDescriptor, storedPeople)`: returns `none` at once
for an empty candidate list, otherwise scans all candidates starting from the
sentinel `{ personId: -1, similarity: 0 }` and returns the best only when its
similarity reaches `MATCH_THRESHOLD`. -/
noncomputable def findBestMatch (detectedDescriptor : List ℝ)
    (storedPeople : List StoredPerson) : Except FaceError (Option MatchResult) :=
  if storedPeople.length = 0 then .ok none
  else do
    let best ← findBestLoop detectedDescriptor storedPeople ⟨-1, 0⟩
    return if best.similarity ≥ MATCH_THRESHOLD then some best else none

/-- The similarity the loop computes for one candidate on the non-error path:
`max 0 (1 - ‖q - d‖)`. -/
noncomputable def similarityScore (q d : List ℝ) : ℝ :=
  max 0 (1 - Real.sqrt (((q.zip d).map fun p => (p.1 - p.2) ^ 2).sum))

/-- The pure value of the candidate loop when no exception occurs. -/
noncomputable def runBest (q : List ℝ) :
    List StoredPerson → MatchResult → MatchResult
  | [], best => best
  | person :: rest, best =>
    runBest q rest
      (if similarityScore q person.descriptor > best.similarity then
        ⟨person.id, similarityScore q person.descriptor⟩ else best)

/-- The similarity component of a `findBestMatch` result, used to state
order-invariance up to tie-break. -/
noncomputable def matchSimilarity (r : Except FaceError (Option MatchResult)) :
    Except FaceError (Option ℝ) :=
  r.map (Option.map MatchResult.similarity)

/-! ## Recognition state machine (src/pages/ARViewer.tsx) -/

/-- The fields of a stored `Person` record that the AR view reads
(`id?: number; name; relation; faceDescriptor?: number[]`). -/
structure Person where
  id : Option Int
  name : String
  relation : String
  faceDescriptor : Option (List ℝ)

/-- A conversation record as read by the AR view (only `summary` is used). -/
structure Conversation where
  summary : String

/-- The displayed person overlay: a matched `Person` together with the
`lastConvo` text (`DetectedPerson extends Person`). -/
structure DetectedPerson where
  person : Person
  lastConvo : String

/-- One poll-cycle detection result handed to the state machine: a face box
position plus an optional descriptor (`detectFaceWithDescriptor` may find a
face without being able to compute a descriptor). -/
structure Detection where
  position : ℝ × ℝ
  descriptor : Option (List ℝ)

/-- The session-scoped read-only environment of the recognition loop: the
descriptor snapshot, the people roster and the conversation lookup. -/
structure AREnv where
  storedDescriptors : List StoredPerson
  allPeople : List Person
  getLatestConversation : Int → Option Conversation

/-- The mutable recognition-session state touched by one `recognize` cycle.
`fetchCount` instruments the number of `getLatestConversation` calls made so
far (it is not a program variable; it counts the fetch effect). -/
structure ARState where
  targetPos : ℝ × ℝ
  isTracking : Bool
  recognitionStatus : String
  lastMatchedId : Option Int
  detectedPerson : Option DetectedPerson
  fetchCount : ℕ

/-- `convo?.summary || 'No recent conversations recorded.'` (an empty summary
string is falsy in JavaScript and also falls back). -/
def conversationSummaryText : Option Conversation → String
  | none => "No recent conversations recorded."
  | some convo =>
    if convo.summary = "" then "No recent conversations recorded."
    else convo.summary

/-- The descriptor snapshot built by `initializeAR`: one entry per person
with `person.id && person.faceDescriptor` truthy (a numeric id `0` is falsy
in JavaScript and is skipped). -/
def descriptorsOf : List Person → List StoredPerson
  | [] => []
  | person :: rest =>
    match person.id, person.faceDescriptor with
    | some i, some d =>
      if i = 0 then descriptorsOf rest else ⟨i, d⟩ :: descriptorsOf rest
    | some _, none => descriptorsOf rest
    | none, _ => descriptorsOf rest

/-- An environment as `initializeAR` builds it: the descriptor snapshot is
derived from the people roster. -/
def AREnv.consistent (env : AREnv) : Prop :=
  env.storedDescriptors = descriptorsOf env.allPeople

/-- The initial recognition-session state (the `useState` / `useRef`
initializers of `ARViewer`). -/
def initialState : ARState where
  targetPos := (75, 30)
  isTracking := false
  recognitionStatus := "Loading AI..."
  lastMatchedId := none
  detectedPerson := none
  fetchCount := 0

/-- One `recognize` poll cycle of `ARViewer.tsx`, from the point where the
detector has answered: `none` means no face this cycle. A `DimensionMismatch`
exception thrown by `findBestMatch` propagates (it would abort the loop). -/
noncomputable def recognizeStep (env : AREnv) (st : ARState)
    (result : Option Detection) : Except FaceError ARState :=
  match result with
  | none =>
    .ok { st with isTracking := false, recognitionStatus := "Scanning..." }
  | some r =>
    let st1 := { st with
      targetPos := (min (r.position.1 + 8) 85, max (r.position.2 - 5) 10),
      isTracking := true }
    match r.descriptor with
    | some descriptor =>
      if 0 < env.storedDescriptors.length then do
        let matchRes ← findBestMatch descriptor env.storedDescriptors
        match matchRes with
        | some m =>
          if some m.personId ≠ st1.lastMatchedId then
            let st2 := { st1 with lastMatchedId := some m.personId }
            match env.allPeople.find? (fun p => decide (p.id = some m.personId)) with
            | some matchedPerson =>
              let convo := env.getLatestConversation m.personId
              .ok { st2 with
                detectedPerson :=
                  some ⟨matchedPerson, conversationSummaryText convo⟩,
                recognitionStatus :=
                  "Recognized (" ++ toString (round (m.similarity * 100)) ++ "%)",
                fetchCount := st2.fetchCount + 1 }
            | none => .ok st2
          else
            .ok st1
        | none =>
          let st2 := { st1 with recognitionStatus := "Unknown face" }
          if st2.lastMatchedId ≠ none then
            .ok { st2 with lastMatchedId := none, detectedPerson := none }
          else
            .ok st2
      else
        .ok { st1 with recognitionStatus := "No faces registered" }
    | none =>
      if env.storedDescriptors.length = 0 then
        .ok { st1 with recognitionStatus := "No faces registered" }
      else
        .ok { st1 with recognitionStatus := "Analyzing face..." }

/-- The recognition-session states reachable from the initial state through
successful poll cycles. -/
inductive Reachable (env : AREnv) : ARState → Prop
  | init : Reachable env initialState
  | step {st st' : ARState} (d : Option Detection) :
      Reachable env st → recognizeStep env st d = .ok st' → Reachable env st'

/-- The overlay invariant of the spec: `lastMatchedIdentityId` is non-none
exactly when a person overlay for that identity is displayed. -/
def overlayInvariant (st : ARState) : Prop :=
  (st.lastMatchedId = none ∧ st.detectedPerson = none) ∨
  (∃ i dp, st.lastMatchedId = some i ∧ st.detectedPerson = some dp ∧
    dp.person.id = some i)

/-! ## Overlay animator (src/pages/ARViewer.tsx, startAnimationLoop) -/

/-- One frame of the animation loop:
`smoothed += (target - smoothed) * 0.12`, each axis independently. -/
noncomputable def animateStep (target smoothed : ℝ × ℝ) : ℝ × ℝ :=
  (smoothed.1 + (target.1 - smoothed.1) * 0.12,
   smoothed.2 + (target.2 - smoothed.2) * 0.12)

/-- The smoothed position after `n` frames with a fixed target. -/
noncomputable def animateIter (target smoothed : ℝ × ℝ) : ℕ → ℝ × ℝ
  | 0 => smoothed
  | n + 1 => animateStep target (animateIter target smoothed n)

/-! ## Summarizer (src/services/gemini.ts) -/

/-- The topic keywords scanned by `createFallbackSummary`. -/
def topicWords : List String :=
  ["hackathon", "birthday", "wedding", "trip", "vacation", "work", "project",
   "school", "doctor", "hospital", "dinner", "lunch", "party", "game", "movie"]

/-- Substring containment on the underlying character lists (JavaScript
`String.prototype.includes`). -/
def strIncludesAux (pattern : List Char) : List Char → Bool
  | [] => pattern.isEmpty
  | c :: rest => pattern.isPrefixOf (c :: rest) || strIncludesAux pattern rest

/-- `lowerText.includes(topic)`. -/
def strIncludes (s pattern : String) : Bool :=
  strIncludesAux pattern.data s.data

/-- `createFallbackSummary(text)`: first matching topic word, else the first
eight whitespace-separated words followed by an ellipsis, else a fixed
sentence for very short inputs. -/
def createFallbackSummary (text : String) : String :=
  let lowerText := text.toLower
  match topicWords.find? (fun topic => strIncludes lowerText topic) with
  | some topic => "Talked about " ++ topic
  | none =>
    let words := ((text.trim.split Char.isWhitespace).filter (· != "")).take 8
    if words.length < 3 then "Had a conversation recently"
    else String.intercalate (" ") words ++ "..."

/-- The success-path cleanup `summary.replace(/^["']|["']$/g, '').trim()`:
drop one leading and one trailing quote character, then trim. -/
def stripEdgeQuotes (s : String) : String :=
  let isQuote : Char → Bool := fun c => c == Char.ofNat 34 || c == Char.ofNat 39
  let s1 := if 0 < s.length && isQuote s.front then s.drop 1 else s
  let s2 := if 0 < s1.length && isQuote s1.back then s1.dropRight 1 else s1
  s2.trim

/-- `!GEMINI_API_KEY`: the key is missing or the empty string (falsy). -/
def keyMissing : Option String → Bool
  | none => true
  | some key => key == ""

/-- The observable outcome of the single `fetch` call of
`summarizeConversation`: a thrown network error, or a response with a
status, an `ok` flag, and the extracted candidate text. `extracted = none`
models the whole falsy extraction chain (`data.candidates?...` etc.) coming
up empty. -/
inductive FetchOutcome
  | thrown
  | resp (status : ℕ) (ok : Bool) (extracted : Option String)

/-- `summarizeConversation(text)` as a function of the API-key configuration
and the fetch outcome. Every failure branch returns the local fallback; only
a usable response body is cleaned up and returned. -/
def summarizeConversation (apiKey : Option String) (outcome : FetchOutcome)
    (text : String) : String :=
  if keyMissing apiKey then createFallbackSummary text
  else
    match outcome with
    | .thrown => createFallbackSummary text
    | .resp status ok extracted =>
      if status = 429 then createFallbackSummary text
      else if !ok then createFallbackSummary text
      else
        match extracted with
        | none => createFallbackSummary text
        | some summary => stripEdgeQuotes summary

/-- A failing summarizer interaction: missing key, thrown network error,
HTTP 429, a non-OK response, or an unextractable body. -/
def summarizeFails (apiKey : Option String) (outcome : FetchOutcome) : Prop :=
  keyMissing apiKey = true ∨ outcome = .thrown ∨
  ∃ status ok extracted, outcome = .resp status ok extracted ∧
    (status = 429 ∨ ok = false ∨ extracted = none)

/-! ## Matcher lemmas -/

theorem exceptPure_eq {α : Type} (a : α) :
    (pure a : Except FaceError α) = Except.ok a := rfl

theorem exceptBind_ok {α β : Type} (a : α) (f : α → Except FaceError β) :
    (Except.ok a >>= f) = f a := rfl

theorem exceptBind_error {α β : Type} (e : FaceError) (f : α → Except FaceError β) :
    ((Except.error e : Except FaceError α) >>= f) = Except.error e := rfl

theorem compareFaces_ok {q d : List ℝ} (h : q.length = d.length) :
    compareFaces q d = .ok (similarityScore q d) := by
  simp [compareFaces, euclideanDistance, similarityScore, h, exceptBind_ok,
    exceptPure_eq]

theorem compareFaces_error {q d : List ℝ} (h : q.length ≠ d.length) :
    compareFaces q d = .error .dimensionMismatch := by
  simp [compareFaces, euclideanDistance, h, exceptBind_error]

theorem compareFaces_ok_iff {q d : List ℝ} {s : ℝ} :
    compareFaces q d = .ok s ↔ q.length = d.length ∧ s = similarityScore q d := by
  by_cases h : q.length = d.length
  · simp [compareFaces_ok h, h, eq_comm]
  · simp [compareFaces_error h, h]

theorem similarityScore_nonneg (q d : List ℝ) : 0 ≤ similarityScore q d :=
  le_max_left _ _

theorem similarityScore_le_one (q d : List ℝ) : similarityScore q d ≤ 1 := by
  have h0 : (0 : ℝ) ≤ Real.sqrt (((q.zip d).map fun p => (p.1 - p.2) ^ 2).sum) :=
    Real.sqrt_nonneg _
  simp only [similarityScore]
  have h1 : 1 - Real.sqrt (((q.zip d).map fun p => (p.1 - p.2) ^ 2).sum) ≤ 1 := by
    linarith
  exact max_le (by norm_num) h1

theorem similarityScore_self (q : List ℝ) : similarityScore q q = 1 := by
  have hz : ((q.zip q).map fun p => (p.1 - p.2) ^ 2).sum = 0 := by
    induction q with
    | nil => simp
    | cons a t ih => simp [ih]
  simp [similarityScore, hz]

theorem findBestLoop_ok_iff {q : List ℝ} {l : List StoredPerson}
    {b r : MatchResult} :
    findBestLoop q l b = .ok r ↔
      (∀ p ∈ l, q.length = p.descriptor.length) ∧ r = runBest q l b := by
  induction l generalizing b with
  | nil => simp [findBestLoop, runBest, eq_comm]
  | cons person rest ih =>
    by_cases h : q.length = person.descriptor.length
    · simp only [findBestLoop, compareFaces_ok h, exceptBind_ok, runBest]
      rw [ih]
      constructor
      · rintro ⟨hrest, hr⟩
        refine ⟨fun p hp => ?_, hr⟩
        rcases List.mem_cons.mp hp with hp | hp
        · exact hp ▸ h
        · exact hrest p hp
      · rintro ⟨hall, hr⟩
        exact ⟨fun p hp => hall p (List.mem_cons_of_mem _ hp), hr⟩
    · simp only [findBestLoop, compareFaces_error h, exceptBind_error]
      constructor
      · intro hcontra
        cases hcontra
      · rintro ⟨hall, -⟩
        exact absurd (hall person (List.mem_cons_self _ _)) h

theorem findBestLoop_error {q : List ℝ} {l : List StoredPerson}
    {b : MatchResult} (h : ∃ p ∈ l, q.length ≠ p.descriptor.length) :
    findBestLoop q l b = .error .dimensionMismatch := by
  rcases hcase : findBestLoop q l b with e | r
  · cases e
    rfl
  · rcases h with ⟨p, hp, hne⟩
    exact absurd ((findBestLoop_ok_iff.mp hcase).1 p hp) hne

theorem runBest_sim (q : List ℝ) (l : List StoredPerson) (b : MatchResult) :
    (runBest q l b).similarity =
      l.foldl (fun a p => max a (similarityScore q p.descriptor)) b.similarity := by
  induction l generalizing b with
  | nil => simp [runBest]
  | cons person rest ih =>
    simp only [runBest, List.foldl_cons]
    rw [ih]
    by_cases h : similarityScore q person.descriptor > b.similarity
    · simp [h, max_eq_right (le_of_lt h)]
    · simp [h, max_eq_left (not_lt.mp h)]

/-- The loop either keeps the initial best (when nothing strictly beats it),
or returns the first candidate attaining the running maximum. -/
theorem runBest_cases (q : List ℝ) (l : List StoredPerson) (b : MatchResult) :
    (runBest q l b = b ∧ ∀ p ∈ l, similarityScore q p.descriptor ≤ b.similarity) ∨
    (∃ pre person post, l = pre ++ person :: post ∧
      runBest q l b = ⟨person.id, similarityScore q person.descriptor⟩ ∧
      b.similarity < similarityScore q person.descriptor ∧
      (∀ x ∈ pre, similarityScore q x.descriptor <
        similarityScore q person.descriptor) ∧
      (∀ x ∈ post, similarityScore q x.descriptor ≤
        similarityScore q person.descriptor)) := by
  induction l generalizing b with
  | nil => exact Or.inl ⟨rfl, by simp⟩
  | cons person rest ih =>
    by_cases h : similarityScore q person.descriptor > b.similarity
    · have hstep : runBest q (person :: rest) b =
          runBest q rest ⟨person.id, similarityScore q person.descriptor⟩ := by
        simp [runBest, h]
      rcases ih (⟨person.id, similarityScore q person.descriptor⟩ : MatchResult) with
        ⟨heq, hall⟩ | ⟨pre, p2, post, hsplit, heq, hlt, hpre, hpost⟩
      · refine Or.inr ⟨[], person, rest, by simp, ?_, h, by simp, ?_⟩
        · rw [hstep, heq]
        · exact fun x hx => hall x hx
      · refine Or.inr ⟨person :: pre, p2, post, by rw [hsplit]; rfl, ?_, ?_, ?_, hpost⟩
        · rw [hstep, heq]
        · exact lt_trans h hlt
        · intro x hx
          rcases List.mem_cons.mp hx with hx | hx
          · rw [hx]
            exact hlt
          · exact hpre x hx
    · have hstep : runBest q (person :: rest) b = runBest q rest b := by
        simp [runBest, h]
      rcases ih b with ⟨heq, hall⟩ | ⟨pre, p2, post, hsplit, heq, hlt, hpre, hpost⟩
      · refine Or.inl ⟨by rw [hstep, heq], ?_⟩
        intro p hp
        rcases List.mem_cons.mp hp with hp | hp
        · rw [hp]
          exact not_lt.mp h
        · exact hall p hp
      · refine Or.inr ⟨person :: pre, p2, post, by rw [hsplit]; rfl, by rw [hstep, heq], hlt, ?_, hpost⟩
        intro x hx
        rcases List.mem_cons.mp hx with hx | hx
        · rw [hx]
          exact lt_of_le_of_lt (not_lt.mp h) hlt
        · exact hpre x hx

theorem foldl_max_le {α : Type} (g : α → ℝ) (l : List α) (b c : ℝ)
    (hb : b ≤ c) (h : ∀ x ∈ l, g x ≤ c) :
    l.foldl (fun a x => max a (g x)) b ≤ c := by
  induction l generalizing b with
  | nil => simpa using hb
  | cons y t ih =>
    simp only [List.foldl_cons]
    exact ih _ (max_le hb (h y (List.mem_cons_self _ _)))
      (fun x hx => h x (List.mem_cons_of_mem _ hx))

theorem le_foldl_max_init {α : Type} (g : α → ℝ) (l : List α) (b : ℝ) :
    b ≤ l.foldl (fun a x => max a (g x)) b := by
  induction l generalizing b with
  | nil => simp
  | cons y t ih =>
    simp only [List.foldl_cons]
    exact le_trans (le_max_left _ _) (ih (max b (g y)))

theorem le_foldl_max_of_mem {α : Type} (g : α → ℝ) (l : List α) (b : ℝ)
    {x : α} (hx : x ∈ l) : g x ≤ l.foldl (fun a y => max a (g y)) b := by
  induction l generalizing b with
  | nil => cases hx
  | cons y t ih =>
    simp only [List.foldl_cons]
    rcases List.mem_cons.mp hx with h | h
    · exact le_trans (h ▸ le_max_right b (g y)) (le_foldl_max_init g t _)
    · exact ih _ h

theorem findBestMatch_empty (q : List ℝ) : findBestMatch q [] = .ok none := by
  simp [findBestMatch]

theorem findBestMatch_ok {q : List ℝ} {l : List StoredPerson}
    (hne : l ≠ []) (hlen : ∀ p ∈ l, q.length = p.descriptor.length) :
    findBestMatch q l =
      .ok (if (runBest q l ⟨-1, 0⟩).similarity ≥ MATCH_THRESHOLD
        then some (runBest q l ⟨-1, 0⟩) else none) := by
  have h0 : ¬ l.length = 0 := fun h => hne (List.length_eq_zero.mp h)
  have hloop : findBestLoop q l ⟨-1, 0⟩ = .ok (runBest q l ⟨-1, 0⟩) :=
    findBestLoop_ok_iff.mpr ⟨hlen, rfl⟩
  simp [findBestMatch, h0, hloop, exceptBind_ok, exceptPure_eq]

theorem findBestMatch_error {q : List ℝ} {l : List StoredPerson}
    (h : ∃ p ∈ l, q.length ≠ p.descriptor.length) :
    findBestMatch q l = .error .dimensionMismatch := by
  have hne : ¬ l.length = 0 := by
    rcases h with ⟨p, hp, -⟩
    exact fun hlen => (List.ne_nil_of_mem hp) (List.length_eq_zero.mp hlen)
  have hloop : findBestLoop q l ⟨-1, 0⟩ = .error .dimensionMismatch :=
    findBestLoop_error h
  simp [findBestMatch, hne, hloop, exceptBind_error]

theorem findBestMatch_ok_inv {q : List ℝ} {l : List StoredPerson}
    {r : Option MatchResult} (h : findBestMatch q l = .ok r) :
    (l = [] ∧ r = none) ∨
    (l ≠ [] ∧ (∀ p ∈ l, q.length = p.descriptor.length) ∧
      r = (if (runBest q l ⟨-1, 0⟩).similarity ≥ MATCH_THRESHOLD
        then some (runBest q l ⟨-1, 0⟩) else none)) := by
  by_cases hl : l = []
  · subst hl
    rw [findBestMatch_empty] at h
    exact Or.inl ⟨rfl, by injection h with h0; exact h0.symm⟩
  · have h0 : ¬ l.length = 0 := fun hc => hl (List.length_eq_zero.mp hc)
    rcases hloop : findBestLoop q l ⟨-1, 0⟩ with e | best
    · rw [findBestMatch, if_neg h0] at h
      rw [hloop] at h
      simp [exceptBind_error] at h
    · rcases findBestLoop_ok_iff.mp hloop with ⟨hlen, hbest⟩
      refine Or.inr ⟨hl, hlen, ?_⟩
      rw [findBestMatch, if_neg h0, hloop] at h
      simp only [exceptBind_ok, exceptPure_eq] at h
      injection h with h1
      rw [← h1, hbest]

theorem findBestMatch_single {q d : List ℝ} {i : Int}
    (h : q.length = d.length) :
    findBestMatch q [⟨i, d⟩] =
      .ok (if MATCH_THRESHOLD ≤ similarityScore q d
        then some ⟨i, similarityScore q d⟩ else none) := by
  have hrun : runBest q [⟨i, d⟩] ⟨-1, 0⟩ =
      (if similarityScore q d > 0 then (⟨i, similarityScore q d⟩ : MatchResult)
        else ⟨-1, 0⟩) := by
    simp [runBest]
  rw [findBestMatch_ok (by simp) (by simpa using h), hrun]
  by_cases hpos : similarityScore q d > 0
  · simp [hpos, ge_iff_le]
  · have hz : similarityScore q d = 0 :=
      le_antisymm (not_lt.mp hpos) (similarityScore_nonneg q d)
    rw [if_neg hpos]
    rw [hz]
    norm_num [MATCH_THRESHOLD]

theorem foldl_max_lt {α : Type} (g : α → ℝ) (l : List α) (b c : ℝ)
    (hb : b < c) (h : ∀ x ∈ l, g x < c) :
    l.foldl (fun a x => max a (g x)) b < c := by
  induction l generalizing b with
  | nil => simpa using hb
  | cons y t ih =>
    simp only [List.foldl_cons]
    exact ih _ (max_lt hb (h y (List.mem_cons_self _ _)))
      (fun x hx => h x (List.mem_cons_of_mem _ hx))

theorem similarityScore_zero_one : similarityScore [(0 : ℝ)] [1] = 0 := by
  norm_num [similarityScore, Real.sqrt_one]

/-! ## Claim theorems: the matcher -/

/-- C1: `findBestMatch` returns `none` for an empty candidate list, returns
`none` whenever every candidate similarity is strictly below the 0.4
threshold (in particular with a single candidate), and otherwise returns the
best-scoring candidate as the match. -/
theorem claim_c1_threshold :
    (∀ q : List ℝ, findBestMatch q [] = .ok none) ∧
    (∀ (q : List ℝ) (l : List StoredPerson),
      (∀ p ∈ l, q.length = p.descriptor.length) →
      (∀ p ∈ l, similarityScore q p.descriptor < MATCH_THRESHOLD) →
      findBestMatch q l = .ok none) ∧
    (∀ (q : List ℝ) (l : List StoredPerson) (p0 : StoredPerson),
      (∀ p ∈ l, q.length = p.descriptor.length) → p0 ∈ l →
      MATCH_THRESHOLD ≤ similarityScore q p0.descriptor →
      ∃ m : MatchResult, findBestMatch q l = .ok (some m) ∧
        (∀ p ∈ l, similarityScore q p.descriptor ≤ m.similarity) ∧
        ∃ p ∈ l, p.id = m.personId ∧
          similarityScore q p.descriptor = m.similarity) := by
  refine ⟨findBestMatch_empty, ?_, ?_⟩
  · intro q l hlen hlt
    by_cases hl : l = []
    · subst hl
      exact findBestMatch_empty q
    · rw [findBestMatch_ok hl hlen]
      have hsim : (runBest q l ⟨-1, 0⟩).similarity < MATCH_THRESHOLD := by
        rw [runBest_sim]
        refine foldl_max_lt _ l _ _ ?_ hlt
        norm_num [MATCH_THRESHOLD]
      rw [if_neg (not_le.mpr hsim)]
  · intro q l p0 hlen hp0 hth
    have hl : l ≠ [] := List.ne_nil_of_mem hp0
    rw [findBestMatch_ok hl hlen]
    have hge : MATCH_THRESHOLD ≤ (runBest q l ⟨-1, 0⟩).similarity := by
      rw [runBest_sim]
      refine le_trans hth ?_
      exact le_foldl_max_of_mem (fun p => similarityScore q p.descriptor) l
        (MatchResult.similarity ⟨-1, 0⟩) hp0
    rw [if_pos hge]
    refine ⟨runBest q l ⟨-1, 0⟩, rfl, ?_, ?_⟩
    · intro p hp
      rw [runBest_sim]
      exact le_foldl_max_of_mem (fun p => similarityScore q p.descriptor) l
        (MatchResult.similarity ⟨-1, 0⟩) hp
    · rcases runBest_cases q l ⟨-1, 0⟩ with ⟨heq, -⟩ |
        ⟨pre, person, post, hsplit, heq, -, -, -⟩
      · exfalso
        rw [heq] at hge
        norm_num [MATCH_THRESHOLD] at hge
      · refine ⟨person, ?_, ?_, ?_⟩
        · rw [hsplit]
          exact List.mem_append_right _ (List.mem_cons_self _ _)
        · rw [heq]
        · rw [heq]

/-- Witness for C1 at concrete inputs: query `[0]` against the empty list,
against a single far candidate (similarity 0), and against a single exact
candidate. -/
theorem claim_c1_threshold_witness :
    findBestMatch [(0 : ℝ)] [] = .ok none ∧
    findBestMatch [(0 : ℝ)] [⟨1, [1]⟩] = .ok none ∧
    ∃ m : MatchResult, findBestMatch [(0 : ℝ)] [⟨2, [0]⟩] = .ok (some m) ∧
      (∀ p ∈ ([⟨2, [0]⟩] : List StoredPerson),
        similarityScore [(0 : ℝ)] p.descriptor ≤ m.similarity) ∧
      ∃ p ∈ ([⟨2, [0]⟩] : List StoredPerson), p.id = m.personId ∧
        similarityScore [(0 : ℝ)] p.descriptor = m.similarity := by
  refine ⟨claim_c1_threshold.1 [0],
    claim_c1_threshold.2.1 [0] [⟨1, [1]⟩] ?_ ?_,
    claim_c1_threshold.2.2 [0] [⟨2, [0]⟩] ⟨2, [0]⟩ ?_ ?_ ?_⟩
  · intro p hp
    rcases List.mem_singleton.mp hp with rfl
    rfl
  · intro p hp
    rcases List.mem_singleton.mp hp with rfl
    simp only [similarityScore_zero_one]
    norm_num [MATCH_THRESHOLD]
  · intro p hp
    rcases List.mem_singleton.mp hp with rfl
    rfl
  · exact List.mem_singleton.mpr rfl
  · simp only [similarityScore_self]
    norm_num [MATCH_THRESHOLD]

/-- C2: the pairwise similarity is `max(0, 1 - Euclidean distance)`, and a
single-candidate self-match returns that candidate with similarity exactly
1. -/
theorem claim_c2_self_match :
    (∀ d1 d2 : List ℝ, d1.length = d2.length →
      compareFaces d1 d2 =
        .ok (max 0 (1 - Real.sqrt (((d1.zip d2).map fun p => (p.1 - p.2) ^ 2).sum)))) ∧
    (∀ (e : List ℝ) (i : Int), findBestMatch e [⟨i, e⟩] = .ok (some ⟨i, 1⟩)) := by
  constructor
  · intro d1 d2 h
    simpa [similarityScore] using compareFaces_ok h
  · intro e i
    rw [findBestMatch_single rfl, similarityScore_self]
    norm_num [MATCH_THRESHOLD]

/-- Witness for C2 at the concrete embedding `[0]`. -/
theorem claim_c2_self_match_witness :
    compareFaces [(0 : ℝ)] [0] =
      .ok (max 0 (1 - Real.sqrt ((([(0 : ℝ)].zip [(0 : ℝ)]).map
        fun p => (p.1 - p.2) ^ 2).sum))) ∧
    findBestMatch [(0 : ℝ)] [⟨5, [0]⟩] = .ok (some ⟨5, 1⟩) :=
  ⟨claim_c2_self_match.1 [0] [0] rfl, claim_c2_self_match.2 [0] 5⟩

/-- C6: the similarity of the `findBestMatch` result is invariant under
permutation of the candidates, and the returned identity is the first
candidate attaining the highest similarity (strict greater-than
replacement). -/
theorem claim_c6_order :
    (∀ (q : List ℝ) (l l' : List StoredPerson), l.Perm l' →
      matchSimilarity (findBestMatch q l) = matchSimilarity (findBestMatch q l')) ∧
    (∀ (q : List ℝ) (l : List StoredPerson) (m : MatchResult),
      findBestMatch q l = .ok (some m) →
      ∃ pre person post, l = pre ++ person :: post ∧
        m.personId = person.id ∧
        m.similarity = similarityScore q person.descriptor ∧
        (∀ x ∈ pre, similarityScore q x.descriptor < m.similarity) ∧
        (∀ x ∈ post, similarityScore q x.descriptor ≤ m.similarity)) := by
  constructor
  · intro q l l' hperm
    by_cases hmis : ∃ p ∈ l, q.length ≠ p.descriptor.length
    · have hmis' : ∃ p ∈ l', q.length ≠ p.descriptor.length := by
        rcases hmis with ⟨p, hp, hne⟩
        exact ⟨p, hperm.mem_iff.mp hp, hne⟩
      rw [findBestMatch_error hmis, findBestMatch_error hmis']
    · push_neg at hmis
      have hlen' : ∀ p ∈ l', q.length = p.descriptor.length := fun p hp =>
        hmis p (hperm.mem_iff.mpr hp)
      by_cases hl : l = []
      · have hl' : l' = [] := ((hl ▸ hperm).symm).eq_nil
        rw [hl, hl']
      · have hl' : l' ≠ [] := fun h =>
          hl ((h ▸ hperm).eq_nil)
        rw [findBestMatch_ok hl hmis, findBestMatch_ok hl' hlen']
        have hsim : (runBest q l ⟨-1, 0⟩).similarity =
            (runBest q l' ⟨-1, 0⟩).similarity := by
          rw [runBest_sim, runBest_sim]
          refine hperm.foldl_eq' ?_ _
          intro x _ y _ z
          rw [max_assoc, max_comm (similarityScore q x.descriptor) _, ← max_assoc]
        by_cases hth : (runBest q l ⟨-1, 0⟩).similarity ≥ MATCH_THRESHOLD
        · rw [if_pos hth, if_pos (by rw [← hsim]; exact hth)]
          simp [matchSimilarity, Except.map, hsim]
        · rw [if_neg hth, if_neg (by rw [← hsim]; exact hth)]
  · intro q l m hok
    rcases findBestMatch_ok_inv hok with ⟨-, hnone⟩ | ⟨-, -, hr⟩
    · cases hnone
    · by_cases hth : (runBest q l ⟨-1, 0⟩).similarity ≥ MATCH_THRESHOLD
      · rw [if_pos hth] at hr
        have hm : m = runBest q l ⟨-1, 0⟩ := by
          injection hr with h1
        rcases runBest_cases q l ⟨-1, 0⟩ with ⟨heq, -⟩ |
          ⟨pre, person, post, hsplit, heq, -, hpre, hpost⟩
        · exfalso
          rw [heq] at hth
          norm_num [MATCH_THRESHOLD] at hth
        · refine ⟨pre, person, post, hsplit, ?_, ?_, ?_, ?_⟩
          · rw [hm, heq]
          · rw [hm, heq]
          · intro x hx
            rw [hm, heq]
            exact hpre x hx
          · intro x hx
            rw [hm, heq]
            exact hpost x hx
      · rw [if_neg hth] at hr
        cases hr

/-- Witness for C6: swapping two concrete candidates preserves the result
similarity, and a concrete two-way tie resolves to the first candidate. -/
theorem claim_c6_order_witness :
    matchSimilarity (findBestMatch [(0 : ℝ)] [⟨1, [0]⟩, ⟨2, [1]⟩]) =
      matchSimilarity (findBestMatch [(0 : ℝ)] [⟨2, [1]⟩, ⟨1, [0]⟩]) ∧
    ∃ pre person post,
      ([⟨1, [0]⟩, ⟨2, [0]⟩] : List StoredPerson) = pre ++ person :: post ∧
      (⟨1, 1⟩ : MatchResult).personId = person.id ∧
      (⟨1, 1⟩ : MatchResult).similarity =
        similarityScore [(0 : ℝ)] person.descriptor ∧
      (∀ x ∈ pre, similarityScore [(0 : ℝ)] x.descriptor <
        (⟨1, 1⟩ : MatchResult).similarity) ∧
      (∀ x ∈ post, similarityScore [(0 : ℝ)] x.descriptor ≤
        (⟨1, 1⟩ : MatchResult).similarity) := by
  have htie : findBestMatch [(0 : ℝ)] [⟨1, [0]⟩, ⟨2, [0]⟩] = .ok (some ⟨1, 1⟩) := by
    rw [findBestMatch_ok (by simp) ?hlen]
    case hlen =>
      intro p hp
      rcases List.mem_cons.mp hp with rfl | hp
      · rfl
      · rcases List.mem_singleton.mp hp with rfl
        rfl
    have hrun : runBest [(0 : ℝ)] [⟨1, [0]⟩, ⟨2, [0]⟩] ⟨-1, 0⟩ =
        (⟨1, 1⟩ : MatchResult) := by
      simp [runBest, similarityScore_self]
    rw [hrun]
    norm_num [MATCH_THRESHOLD]
  exact ⟨claim_c6_order.1 [0] _ _ (List.Perm.swap _ _ _),
    claim_c6_order.2 [(0 : ℝ)] [⟨1, [0]⟩, ⟨2, [0]⟩] ⟨1, 1⟩ htie⟩

/-- C7: a query/candidate length mismatch makes the match attempt fail with
`DimensionMismatch`; no similarity over mismatched lengths is ever
returned. -/
theorem claim_c7_dimension_mismatch :
    ∀ (q : List ℝ) (l : List StoredPerson),
      (∃ p ∈ l, q.length ≠ p.descriptor.length) →
      findBestMatch q l = .error .dimensionMismatch :=
  fun _ _ h => findBestMatch_error h

/-- Witness for C7: a one-element query against a two-element candidate. -/
theorem claim_c7_dimension_mismatch_witness :
    (∃ p ∈ ([⟨1, [0, 0]⟩] : List StoredPerson),
      ([(0 : ℝ)]).length ≠ p.descriptor.length) ∧
    findBestMatch [(0 : ℝ)] [⟨1, [0, 0]⟩] = .error .dimensionMismatch :=
  ⟨⟨⟨1, [0, 0]⟩, List.mem_singleton.mpr rfl, by simp⟩,
    claim_c7_dimension_mismatch _ _
      ⟨⟨1, [0, 0]⟩, List.mem_singleton.mpr rfl, by simp⟩⟩

/-- C10: every returned match has similarity in `[0.4, 1]` and names an
actual candidate of the input list; the sentinel `{-1, 0}` never escapes. -/
theorem claim_c10_result_sound :
    ∀ (q : List ℝ) (l : List StoredPerson) (m : MatchResult),
      findBestMatch q l = .ok (some m) →
      MATCH_THRESHOLD ≤ m.similarity ∧ m.similarity ≤ 1 ∧
      ∃ p ∈ l, p.id = m.personId ∧
        similarityScore q p.descriptor = m.similarity := by
  intro q l m hok
  rcases findBestMatch_ok_inv hok with ⟨-, hnone⟩ | ⟨-, -, hr⟩
  · cases hnone
  · by_cases hth : (runBest q l ⟨-1, 0⟩).similarity ≥ MATCH_THRESHOLD
    · rw [if_pos hth] at hr
      have hm : m = runBest q l ⟨-1, 0⟩ := by
        injection hr with h1
      rcases runBest_cases q l ⟨-1, 0⟩ with ⟨heq, -⟩ |
        ⟨pre, person, post, hsplit, heq, -, -, -⟩
      · exfalso
        rw [heq] at hth
        norm_num [MATCH_THRESHOLD] at hth
      · refine ⟨by rw [hm]; exact hth, ?_, person, ?_, ?_, ?_⟩
        · rw [hm, heq]
          exact similarityScore_le_one _ _
        · rw [hsplit]
          exact List.mem_append_right _ (List.mem_cons_self _ _)
        · rw [hm, heq]
        · rw [hm, heq]
    · rw [if_neg hth] at hr
      cases hr

/-- Witness for C10 at a concrete exact match. -/
theorem claim_c10_result_sound_witness :
    MATCH_THRESHOLD ≤ (⟨3, 1⟩ : MatchResult).similarity ∧
    (⟨3, 1⟩ : MatchResult).similarity ≤ 1 ∧
    ∃ p ∈ ([⟨3, [0]⟩] : List StoredPerson),
      p.id = (⟨3, 1⟩ : MatchResult).personId ∧
      similarityScore [(0 : ℝ)] p.descriptor =
        (⟨3, 1⟩ : MatchResult).similarity := by
  have h : findBestMatch [(0 : ℝ)] [⟨3, [0]⟩] = .ok (some ⟨3, 1⟩) := by
    rw [findBestMatch_single rfl, similarityScore_self]
    norm_num [MATCH_THRESHOLD]
  exact claim_c10_result_sound [(0 : ℝ)] [⟨3, [0]⟩] ⟨3, 1⟩ h

/-! ## Recognition state-machine lemmas -/

theorem findBestMatch_mem {q : List ℝ} {l : List StoredPerson} {m : MatchResult}
    (h : findBestMatch q l = .ok (some m)) : ∃ p ∈ l, p.id = m.personId := by
  rcases findBestMatch_ok_inv h with ⟨-, hnone⟩ | ⟨-, -, hr⟩
  · cases hnone
  · by_cases hth : (runBest q l ⟨-1, 0⟩).similarity ≥ MATCH_THRESHOLD
    · rw [if_pos hth] at hr
      injection hr with h1
      rcases runBest_cases q l ⟨-1, 0⟩ with ⟨heq, -⟩ |
        ⟨pre, person, post, hsplit, heq, -, -, -⟩
      · exfalso
        rw [heq] at hth
        norm_num [MATCH_THRESHOLD] at hth
      · refine ⟨person, ?_, ?_⟩
        · rw [hsplit]
          exact List.mem_append_right _ (List.mem_cons_self _ _)
        · rw [h1, heq]
    · rw [if_neg hth] at hr
      cases hr

theorem descriptorsOf_mem {people : List Person} {p : StoredPerson}
    (hp : p ∈ descriptorsOf people) :
    ∃ person ∈ people, person.id = some p.id := by
  induction people with
  | nil => cases hp
  | cons person rest ih =>
    rcases hid : person.id with _ | i
    · simp only [descriptorsOf, hid] at hp
      rcases ih hp with ⟨per, hmem, hid2⟩
      exact ⟨per, List.mem_cons_of_mem _ hmem, hid2⟩
    · rcases hfd : person.faceDescriptor with _ | dsc
      · simp only [descriptorsOf, hid, hfd] at hp
        rcases ih hp with ⟨per, hmem, hid2⟩
        exact ⟨per, List.mem_cons_of_mem _ hmem, hid2⟩
      · simp only [descriptorsOf, hid, hfd] at hp
        by_cases hzero : i = 0
        · rw [if_pos hzero] at hp
          rcases ih hp with ⟨per, hmem, hid2⟩
          exact ⟨per, List.mem_cons_of_mem _ hmem, hid2⟩
        · rw [if_neg hzero] at hp
          rcases List.mem_cons.mp hp with rfl | hp
          · exact ⟨person, List.mem_cons_self _ _, by rw [hid]⟩
          · rcases ih hp with ⟨per, hmem, hid2⟩
            exact ⟨per, List.mem_cons_of_mem _ hmem, hid2⟩

theorem find?_id_of_exists {people : List Person} {i : Int}
    (h : ∃ person ∈ people, person.id = some i) :
    ∃ person, people.find? (fun p => decide (p.id = some i)) = some person := by
  rcases h with ⟨per, hmem, hid⟩
  have hsome : (people.find? (fun p => decide (p.id = some i))).isSome := by
    rw [List.find?_isSome]
    exact ⟨per, hmem, by simp [hid]⟩
  exact Option.isSome_iff_exists.mp hsome

theorem find?_id_sound {people : List Person} {i : Int} {person : Person}
    (h : people.find? (fun p => decide (p.id = some i)) = some person) :
    person.id = some i := by
  have := List.find?_some h
  simpa using this

theorem recognizeStep_none_eq (env : AREnv) (st : ARState) :
    recognizeStep env st none =
      .ok { st with isTracking := false, recognitionStatus := "Scanning..." } :=
  rfl

theorem recognizeStep_unknown_eq {env : AREnv} {st : ARState} {r : Detection}
    {q : List ℝ} (hd : r.descriptor = some q)
    (hlen : 0 < env.storedDescriptors.length)
    (hm : findBestMatch q env.storedDescriptors = .ok none) :
    recognizeStep env st (some r) = .ok (
      if st.lastMatchedId ≠ none then
        { st with
          targetPos := (min (r.position.1 + 8) 85, max (r.position.2 - 5) 10),
          isTracking := true, recognitionStatus := "Unknown face",
          lastMatchedId := none, detectedPerson := none }
      else
        { st with
          targetPos := (min (r.position.1 + 8) 85, max (r.position.2 - 5) 10),
          isTracking := true, recognitionStatus := "Unknown face" }) := by
  simp only [recognizeStep, hd, hm, exceptBind_ok]
  rw [if_pos hlen]
  exact (apply_ite Except.ok _ _ _).symm

theorem recognizeStep_newMatch_eq {env : AREnv} {st : ARState} {r : Detection}
    {q : List ℝ} {m : MatchResult} {person : Person}
    (hd : r.descriptor = some q)
    (hlen : 0 < env.storedDescriptors.length)
    (hm : findBestMatch q env.storedDescriptors = .ok (some m))
    (hlast : some m.personId ≠ st.lastMatchedId)
    (hfind : env.allPeople.find? (fun p => decide (p.id = some m.personId)) =
      some person) :
    recognizeStep env st (some r) = .ok { st with
      targetPos := (min (r.position.1 + 8) 85, max (r.position.2 - 5) 10),
      isTracking := true,
      lastMatchedId := some m.personId,
      detectedPerson := some ⟨person,
        conversationSummaryText (env.getLatestConversation m.personId)⟩,
      recognitionStatus :=
        "Recognized (" ++ toString (round (m.similarity * 100)) ++ "%)",
      fetchCount := st.fetchCount + 1 } := by
  simp only [recognizeStep, hd, hm, exceptBind_ok, hfind]
  rw [if_pos hlen, if_pos hlast]

theorem recognizeStep_newMatch_notFound_eq {env : AREnv} {st : ARState}
    {r : Detection} {q : List ℝ} {m : MatchResult}
    (hd : r.descriptor = some q)
    (hlen : 0 < env.storedDescriptors.length)
    (hm : findBestMatch q env.storedDescriptors = .ok (some m))
    (hlast : some m.personId ≠ st.lastMatchedId)
    (hfind : env.allPeople.find? (fun p => decide (p.id = some m.personId)) =
      none) :
    recognizeStep env st (some r) = .ok { st with
      targetPos := (min (r.position.1 + 8) 85, max (r.position.2 - 5) 10),
      isTracking := true,
      lastMatchedId := some m.personId } := by
  simp only [recognizeStep, hd, hm, exceptBind_ok, hfind]
  rw [if_pos hlen, if_pos hlast]

theorem recognizeStep_sameMatch_eq {env : AREnv} {st : ARState} {r : Detection}
    {q : List ℝ} {m : MatchResult}
    (hd : r.descriptor = some q)
    (hlen : 0 < env.storedDescriptors.length)
    (hm : findBestMatch q env.storedDescriptors = .ok (some m))
    (hlast : some m.personId = st.lastMatchedId) :
    recognizeStep env st (some r) = .ok { st with
      targetPos := (min (r.position.1 + 8) 85, max (r.position.2 - 5) 10),
      isTracking := true } := by
  simp only [recognizeStep, hd, hm, exceptBind_ok]
  rw [if_pos hlen, if_neg (by simp [hlast])]

theorem recognizeStep_analyzing_eq {env : AREnv} {st : ARState} {r : Detection}
    (hd : r.descriptor = none)
    (hlen : ¬ env.storedDescriptors.length = 0) :
    recognizeStep env st (some r) = .ok { st with
      targetPos := (min (r.position.1 + 8) 85, max (r.position.2 - 5) 10),
      isTracking := true, recognitionStatus := "Analyzing face..." } := by
  simp only [recognizeStep, hd]
  rw [if_neg hlen]

theorem recognizeStep_noneRegistered_eq {env : AREnv} {st : ARState}
    {r : Detection} (hd : r.descriptor = none)
    (hlen : env.storedDescriptors.length = 0) :
    recognizeStep env st (some r) = .ok { st with
      targetPos := (min (r.position.1 + 8) 85, max (r.position.2 - 5) 10),
      isTracking := true, recognitionStatus := "No faces registered" } := by
  simp only [recognizeStep, hd]
  rw [if_pos hlen]

theorem recognizeStep_noneRegistered_desc_eq {env : AREnv} {st : ARState}
    {r : Detection} {q : List ℝ} (hd : r.descriptor = some q)
    (hlen : ¬ 0 < env.storedDescriptors.length) :
    recognizeStep env st (some r) = .ok { st with
      targetPos := (min (r.position.1 + 8) 85, max (r.position.2 - 5) 10),
      isTracking := true, recognitionStatus := "No faces registered" } := by
  simp only [recognizeStep, hd]
  rw [if_neg hlen]

/-- Exhaustive description of how one successful poll cycle can change the
matched-identity and displayed-person fields. -/
theorem recognizeStep_ok_cases {env : AREnv} {st st' : ARState}
    {d : Option Detection} (h : recognizeStep env st d = .ok st') :
    (st'.lastMatchedId = st.lastMatchedId ∧
      st'.detectedPerson = st.detectedPerson) ∨
    (st'.lastMatchedId = none ∧ st'.detectedPerson = none ∧
      st.lastMatchedId ≠ none) ∨
    (∃ (m : MatchResult) (person : Person),
      (∃ p ∈ env.storedDescriptors, p.id = m.personId) ∧
      env.allPeople.find? (fun p => decide (p.id = some m.personId)) =
        some person ∧
      st'.lastMatchedId = some m.personId ∧
      st'.detectedPerson = some ⟨person,
        conversationSummaryText (env.getLatestConversation m.personId)⟩) ∨
    (∃ m : MatchResult,
      (∃ p ∈ env.storedDescriptors, p.id = m.personId) ∧
      env.allPeople.find? (fun p => decide (p.id = some m.personId)) = none ∧
      st'.lastMatchedId = some m.personId ∧
      st'.detectedPerson = st.detectedPerson) := by
  cases d with
  | none =>
    rw [recognizeStep_none_eq] at h
    injection h with h1
    subst h1
    exact Or.inl ⟨rfl, rfl⟩
  | some r =>
    rcases hd : r.descriptor with _ | q
    · by_cases hz : env.storedDescriptors.length = 0
      · rw [recognizeStep_noneRegistered_eq hd hz] at h
        injection h with h1
        subst h1
        exact Or.inl ⟨rfl, rfl⟩
      · rw [recognizeStep_analyzing_eq hd hz] at h
        injection h with h1
        subst h1
        exact Or.inl ⟨rfl, rfl⟩
    · by_cases hlen : 0 < env.storedDescriptors.length
      · rcases hm : findBestMatch q env.storedDescriptors with e | mo
        · simp only [recognizeStep, hd, hm, exceptBind_error] at h
          rw [if_pos hlen] at h
          cases h
        · cases mo with
          | none =>
            rw [recognizeStep_unknown_eq hd hlen hm] at h
            injection h with h1
            by_cases hlast : st.lastMatchedId ≠ none
            · rw [if_pos hlast] at h1
              subst h1
              exact Or.inr (Or.inl ⟨rfl, rfl, hlast⟩)
            · rw [if_neg hlast] at h1
              subst h1
              exact Or.inl ⟨rfl, rfl⟩
          | some m =>
            by_cases hsame : some m.personId ≠ st.lastMatchedId
            · rcases hfind : env.allPeople.find?
                  (fun p => decide (p.id = some m.personId)) with _ | person
              · rw [recognizeStep_newMatch_notFound_eq hd hlen hm hsame hfind] at h
                injection h with h1
                subst h1
                exact Or.inr (Or.inr (Or.inr
                  ⟨m, findBestMatch_mem hm, hfind, rfl, rfl⟩))
              · rw [recognizeStep_newMatch_eq hd hlen hm hsame hfind] at h
                injection h with h1
                subst h1
                exact Or.inr (Or.inr (Or.inl
                  ⟨m, person, findBestMatch_mem hm, hfind, rfl, rfl⟩))
            · rw [recognizeStep_sameMatch_eq hd hlen hm (not_not.mp hsame)] at h
              injection h with h1
              subst h1
              exact Or.inl ⟨rfl, rfl⟩
      · rw [recognizeStep_noneRegistered_desc_eq hd hlen] at h
        injection h with h1
        subst h1
        exact Or.inl ⟨rfl, rfl⟩

/-- One successful poll cycle preserves the overlay invariant in a
consistent environment. -/
theorem overlayInvariant_step {env : AREnv} {st st' : ARState}
    {d : Option Detection} (hcons : env.consistent)
    (hinv : overlayInvariant st) (h : recognizeStep env st d = .ok st') :
    overlayInvariant st' := by
  rcases recognizeStep_ok_cases h with ⟨h1, h2⟩ | ⟨h1, h2, -⟩ |
    ⟨m, person, -, hfind, h1, h2⟩ | ⟨m, ⟨p, hp, hpid⟩, hfind, h1, h2⟩
  · rcases hinv with ⟨ha, hb⟩ | ⟨i, dp, ha, hb, hc⟩
    · exact Or.inl ⟨h1.trans ha, h2.trans hb⟩
    · exact Or.inr ⟨i, dp, h1.trans ha, h2.trans hb, hc⟩
  · exact Or.inl ⟨h1, h2⟩
  · exact Or.inr ⟨m.personId, _, h1, h2, find?_id_sound hfind⟩
  · exfalso
    rw [hcons] at hp
    rcases descriptorsOf_mem hp with ⟨per2, hmem2, hid2⟩
    rcases find?_id_of_exists (i := m.personId)
        ⟨per2, hmem2, by rw [hid2, hpid]⟩ with ⟨per, hper⟩
    rw [hper] at hfind
    cases hfind

/-! ## Claim theorems: the overlay animator -/

theorem animateIter_err1 (t s : ℝ × ℝ) (n : ℕ) :
    t.1 - (animateIter t s n).1 = (1 - 0.12) ^ n * (t.1 - s.1) := by
  induction n with
  | zero => simp [animateIter]
  | succ n ih =>
    have hstep : t.1 - (animateStep t (animateIter t s n)).1 =
        (1 - 0.12) * (t.1 - (animateIter t s n).1) := by
      simp only [animateStep]
      ring
    calc t.1 - (animateIter t s (n + 1)).1
        = (1 - 0.12) * (t.1 - (animateIter t s n).1) := hstep
      _ = (1 - 0.12) ^ (n + 1) * (t.1 - s.1) := by rw [ih]; ring

theorem animateIter_err2 (t s : ℝ × ℝ) (n : ℕ) :
    t.2 - (animateIter t s n).2 = (1 - 0.12) ^ n * (t.2 - s.2) := by
  induction n with
  | zero => simp [animateIter]
  | succ n ih =>
    have hstep : t.2 - (animateStep t (animateIter t s n)).2 =
        (1 - 0.12) * (t.2 - (animateIter t s n).2) := by
      simp only [animateStep]
      ring
    calc t.2 - (animateIter t s (n + 1)).2
        = (1 - 0.12) * (t.2 - (animateIter t s n).2) := hstep
      _ = (1 - 0.12) ^ (n + 1) * (t.2 - s.2) := by rw [ih]; ring

/-- C8 counterexample: with target `(1, 0)` and initial smoothed `(0, 0)`
(initial x-axis offset 1), the error remaining after 50 smoothing iterations
is `0.88 ^ 50 ≈ 0.00168`, which is NOT strictly less than 0.1 percent of the
initial offset, refuting the claimed 50-iteration bound. -/
theorem claim_c8_counterexample :
    ¬ |(1 : ℝ) - (animateIter (1, 0) (0, 0) 50).1| < 0.001 * |(1 : ℝ) - 0| := by
  have h : (1 : ℝ) - (animateIter (1, 0) (0, 0) 50).1 =
      (1 - 0.12) ^ 50 * ((1 : ℝ) - 0) := by
    simpa using animateIter_err1 (1, 0) (0, 0) 50
  rw [not_lt, h]
  rw [abs_of_pos (by positivity), abs_of_pos (by norm_num)]
  norm_num

/-- C8 (amended): iterating `smoothed += (target - smoothed) * 0.12`
independently on each axis leaves error `0.88 ^ n` times the initial offset
after `n` steps, hence converges to the target; after 50 iterations the
remaining error is at most 0.2 percent of the initial offset (not the
claimed 0.1 percent, since `0.88 ^ 50 ≈ 0.00168`); and one step from
smoothed `(75, 30)` toward target `(80, 20)` yields `(75.6, 28.8)`. -/
theorem claim_c8_amended :
    (∀ (t s : ℝ × ℝ) (n : ℕ),
      t.1 - (animateIter t s n).1 = (1 - 0.12) ^ n * (t.1 - s.1) ∧
      t.2 - (animateIter t s n).2 = (1 - 0.12) ^ n * (t.2 - s.2)) ∧
    (∀ t s : ℝ × ℝ,
      Filter.Tendsto (fun n => (animateIter t s n).1) Filter.atTop (nhds t.1) ∧
      Filter.Tendsto (fun n => (animateIter t s n).2) Filter.atTop (nhds t.2)) ∧
    (∀ t s : ℝ × ℝ,
      |t.1 - (animateIter t s 50).1| ≤ 0.002 * |t.1 - s.1| ∧
      |t.2 - (animateIter t s 50).2| ≤ 0.002 * |t.2 - s.2|) ∧
    animateStep (80, 20) (75, 30) = (75.6, 28.8) := by
  have hpow : Filter.Tendsto (fun n : ℕ => ((1 : ℝ) - 0.12) ^ n)
      Filter.atTop (nhds 0) :=
    tendsto_pow_atTop_nhds_zero_of_lt_one (by norm_num) (by norm_num)
  have hbound : ((1 : ℝ) - 0.12) ^ 50 ≤ 0.002 := by norm_num
  refine ⟨fun t s n => ⟨animateIter_err1 t s n, animateIter_err2 t s n⟩,
    ?_, ?_, ?_⟩
  · intro t s
    constructor
    · have h1 : Filter.Tendsto
          (fun n : ℕ => t.1 - ((1 : ℝ) - 0.12) ^ n * (t.1 - s.1))
          Filter.atTop (nhds (t.1 - 0 * (t.1 - s.1))) :=
        Filter.Tendsto.sub tendsto_const_nhds (hpow.mul_const _)
      rw [zero_mul, sub_zero] at h1
      refine h1.congr fun n => ?_
      have := animateIter_err1 t s n
      linarith
    · have h1 : Filter.Tendsto
          (fun n : ℕ => t.2 - ((1 : ℝ) - 0.12) ^ n * (t.2 - s.2))
          Filter.atTop (nhds (t.2 - 0 * (t.2 - s.2))) :=
        Filter.Tendsto.sub tendsto_const_nhds (hpow.mul_const _)
      rw [zero_mul, sub_zero] at h1
      refine h1.congr fun n => ?_
      have := animateIter_err2 t s n
      linarith
  · intro t s
    constructor
    · rw [animateIter_err1, abs_mul, abs_of_pos (a := ((1 : ℝ) - 0.12) ^ 50)
        (by positivity)]
      exact mul_le_mul_of_nonneg_right hbound (abs_nonneg _)
    · rw [animateIter_err2, abs_mul, abs_of_pos (a := ((1 : ℝ) - 0.12) ^ 50)
        (by positivity)]
      exact mul_le_mul_of_nonneg_right hbound (abs_nonneg _)
  · simp only [animateStep]
    norm_num

/-! ## Claim theorems: the recognition state machine -/

/-- C3: a no-face cycle sets the status to "Scanning..." and clears the
tracking flag but does not clear `lastMatchedIdentityId` or the displayed
person; a face cycle whose embedding yields no match sets the status to
"Unknown face" and clears the displayed person and `lastMatchedIdentityId`
exactly when a person was previously matched (edge-triggered, no repeated
clear once already cleared). -/
theorem claim_c3_stickiness :
    (∀ (env : AREnv) (st : ARState),
      ∃ st', recognizeStep env st none = .ok st' ∧
        st'.recognitionStatus = "Scanning..." ∧ st'.isTracking = false ∧
        st'.lastMatchedId = st.lastMatchedId ∧
        st'.detectedPerson = st.detectedPerson) ∧
    (∀ (env : AREnv) (st : ARState) (r : Detection) (q : List ℝ),
      r.descriptor = some q → 0 < env.storedDescriptors.length →
      findBestMatch q env.storedDescriptors = .ok none →
      ∃ st', recognizeStep env st (some r) = .ok st' ∧
        st'.recognitionStatus = "Unknown face" ∧
        (st.lastMatchedId ≠ none →
          st'.lastMatchedId = none ∧ st'.detectedPerson = none) ∧
        (st.lastMatchedId = none →
          st'.lastMatchedId = st.lastMatchedId ∧
          st'.detectedPerson = st.detectedPerson)) := by
  constructor
  · intro env st
    exact ⟨_, recognizeStep_none_eq env st, rfl, rfl, rfl, rfl⟩
  · intro env st r q hd hlen hm
    by_cases hlast : st.lastMatchedId ≠ none
    · refine ⟨{ st with
          targetPos := (min (r.position.1 + 8) 85, max (r.position.2 - 5) 10),
          isTracking := true, recognitionStatus := "Unknown face",
          lastMatchedId := none, detectedPerson := none }, ?_,
        rfl, fun _ => ⟨rfl, rfl⟩, fun hnone => absurd hnone hlast⟩
      rw [recognizeStep_unknown_eq hd hlen hm, if_pos hlast]
    · refine ⟨{ st with
          targetPos := (min (r.position.1 + 8) 85, max (r.position.2 - 5) 10),
          isTracking := true, recognitionStatus := "Unknown face" }, ?_,
        rfl, fun hne => absurd hne hlast, fun _ => ⟨rfl, rfl⟩⟩
      rw [recognizeStep_unknown_eq hd hlen hm, if_neg hlast]

/-- C4: a cycle whose match equals the current `lastMatchedIdentityId`
leaves the recognition fields (matched id, displayed person, status)
unchanged and performs no conversation fetch; two consecutive cycles
matching the same new identity perform exactly one `getLatestConversation`
fetch, not two. -/
theorem claim_c4_debounce :
    (∀ (env : AREnv) (st : ARState) (r : Detection) (q : List ℝ)
        (m : MatchResult),
      r.descriptor = some q → 0 < env.storedDescriptors.length →
      findBestMatch q env.storedDescriptors = .ok (some m) →
      st.lastMatchedId = some m.personId →
      ∃ st', recognizeStep env st (some r) = .ok st' ∧
        st'.lastMatchedId = st.lastMatchedId ∧
        st'.detectedPerson = st.detectedPerson ∧
        st'.recognitionStatus = st.recognitionStatus ∧
        st'.fetchCount = st.fetchCount) ∧
    (∀ (env : AREnv) (st : ARState) (r : Detection) (q : List ℝ)
        (m : MatchResult),
      env.consistent →
      r.descriptor = some q → 0 < env.storedDescriptors.length →
      findBestMatch q env.storedDescriptors = .ok (some m) →
      st.lastMatchedId ≠ some m.personId →
      ∃ st1 st2, recognizeStep env st (some r) = .ok st1 ∧
        recognizeStep env st1 (some r) = .ok st2 ∧
        st1.fetchCount = st.fetchCount + 1 ∧
        st2.fetchCount = st1.fetchCount) := by
  constructor
  · intro env st r q m hd hlen hm hlast
    exact ⟨_, recognizeStep_sameMatch_eq hd hlen hm hlast.symm,
      rfl, rfl, rfl, rfl⟩
  · intro env st r q m hcons hd hlen hm hlast
    obtain ⟨p, hp, hpid⟩ := findBestMatch_mem hm
    rw [hcons] at hp
    obtain ⟨per2, hmem2, hid2⟩ := descriptorsOf_mem hp
    obtain ⟨person, hfind⟩ := find?_id_of_exists (i := m.personId)
      ⟨per2, hmem2, by rw [hid2, hpid]⟩
    have hne : some m.personId ≠ st.lastMatchedId :=
      fun hcontra => hlast hcontra.symm
    exact ⟨_, _, recognizeStep_newMatch_eq hd hlen hm hne hfind,
      recognizeStep_sameMatch_eq hd hlen hm rfl, rfl, rfl⟩

/-- C5: in every state reachable through successful poll cycles of a
consistent session, `lastMatchedIdentityId` is non-none exactly when a
person overlay for that identity is displayed; and any cycle taking the
machine from matched to unmatched clears the overlay. -/
theorem claim_c5_overlay_invariant :
    (∀ (env : AREnv) (st : ARState), env.consistent → Reachable env st →
      overlayInvariant st) ∧
    (∀ (env : AREnv) (st st' : ARState) (d : Option Detection),
      recognizeStep env st d = .ok st' →
      st.lastMatchedId ≠ none → st'.lastMatchedId = none →
      st'.detectedPerson = none) := by
  constructor
  · intro env st hcons hreach
    induction hreach with
    | init => exact Or.inl ⟨rfl, rfl⟩
    | step d hre hstep ih => exact overlayInvariant_step hcons ih hstep
  · intro env st st' d hstep hne hnone
    rcases recognizeStep_ok_cases hstep with ⟨h1, h2⟩ | ⟨-, h2, -⟩ |
      ⟨m, person, -, -, h1, -⟩ | ⟨m, -, -, h1, -⟩
    · exact absurd (h1.symm.trans hnone) hne
    · exact h2
    · rw [h1] at hnone
      cases hnone
    · rw [h1] at hnone
      cases hnone

/-- Witness for C3: a no-face cycle from the initial state, and an
unknown-face cycle (single candidate at distance 1, similarity 0) from a
previously-matched state. -/
theorem claim_c3_stickiness_witness :
    (∃ st', recognizeStep ⟨[], [], fun _ => none⟩ initialState none = .ok st' ∧
      st'.recognitionStatus = "Scanning..." ∧ st'.isTracking = false ∧
      st'.lastMatchedId = initialState.lastMatchedId ∧
      st'.detectedPerson = initialState.detectedPerson) ∧
    ((⟨(0, 0), some [0]⟩ : Detection).descriptor = some [0] ∧
      findBestMatch [(0 : ℝ)] [⟨1, [1]⟩] = .ok none) ∧
    (∃ st', recognizeStep ⟨[⟨1, [1]⟩], [], fun _ => none⟩
        { initialState with lastMatchedId := some 7 }
        (some ⟨(0, 0), some [0]⟩) = .ok st' ∧
      st'.recognitionStatus = "Unknown face" ∧
      (({ initialState with lastMatchedId := some 7 } : ARState).lastMatchedId ≠
          none →
        st'.lastMatchedId = none ∧ st'.detectedPerson = none) ∧
      (({ initialState with lastMatchedId := some 7 } : ARState).lastMatchedId =
          none →
        st'.lastMatchedId =
          ({ initialState with lastMatchedId := some 7 } : ARState).lastMatchedId ∧
        st'.detectedPerson =
          ({ initialState with
            lastMatchedId := some 7 } : ARState).detectedPerson)) := by
  have hm : findBestMatch [(0 : ℝ)] [⟨1, [1]⟩] = .ok none := by
    rw [findBestMatch_single (q := [(0 : ℝ)]) (d := [1]) (i := 1) rfl,
      similarityScore_zero_one]
    norm_num [MATCH_THRESHOLD]
  exact ⟨claim_c3_stickiness.1 ⟨[], [], fun _ => none⟩ initialState,
    ⟨rfl, hm⟩,
    claim_c3_stickiness.2 ⟨[⟨1, [1]⟩], [], fun _ => none⟩
      { initialState with lastMatchedId := some 7 } ⟨(0, 0), some [0]⟩ [0]
      rfl (by simp) hm⟩

/-- Witness for C4: a consistent one-person roster; a same-identity cycle
from an already-matched state changes nothing, and two consecutive matching
cycles from the initial state fetch exactly once. -/
theorem claim_c4_debounce_witness :
    (findBestMatch [(0 : ℝ)]
        (descriptorsOf [⟨some 1, "Alice", "Mom", some [0]⟩]) =
      .ok (some ⟨1, 1⟩)) ∧
    (∃ st', recognizeStep
        ⟨descriptorsOf [⟨some 1, "Alice", "Mom", some [0]⟩],
          [⟨some 1, "Alice", "Mom", some [0]⟩], fun _ => none⟩
        { initialState with lastMatchedId := some 1 }
        (some ⟨(0, 0), some [0]⟩) = .ok st' ∧
      st'.lastMatchedId =
        ({ initialState with lastMatchedId := some 1 } : ARState).lastMatchedId ∧
      st'.detectedPerson =
        ({ initialState with lastMatchedId := some 1 } : ARState).detectedPerson ∧
      st'.recognitionStatus =
        ({ initialState with
          lastMatchedId := some 1 } : ARState).recognitionStatus ∧
      st'.fetchCount =
        ({ initialState with lastMatchedId := some 1 } : ARState).fetchCount) ∧
    (∃ st1 st2, recognizeStep
        ⟨descriptorsOf [⟨some 1, "Alice", "Mom", some [0]⟩],
          [⟨some 1, "Alice", "Mom", some [0]⟩], fun _ => none⟩
        initialState (some ⟨(0, 0), some [0]⟩) = .ok st1 ∧
      recognizeStep
        ⟨descriptorsOf [⟨some 1, "Alice", "Mom", some [0]⟩],
          [⟨some 1, "Alice", "Mom", some [0]⟩], fun _ => none⟩
        st1 (some ⟨(0, 0), some [0]⟩) = .ok st2 ∧
      st1.fetchCount = initialState.fetchCount + 1 ∧
      st2.fetchCount = st1.fetchCount) := by
  have hdesc : descriptorsOf [⟨some 1, "Alice", "Mom", some [0]⟩] =
      [⟨1, [0]⟩] := rfl
  have hm : findBestMatch [(0 : ℝ)]
      (descriptorsOf [⟨some 1, "Alice", "Mom", some [0]⟩]) =
      .ok (some ⟨1, 1⟩) := by
    rw [hdesc, findBestMatch_single rfl, similarityScore_self]
    norm_num [MATCH_THRESHOLD]
  have hlen : 0 < (descriptorsOf [⟨some 1, "Alice", "Mom", some [0]⟩]).length := by
    rw [hdesc]
    simp
  exact ⟨hm,
    claim_c4_debounce.1 _ _ _ [0] ⟨1, 1⟩ rfl hlen hm rfl,
    claim_c4_debounce.2 _ _ _ [0] ⟨1, 1⟩ rfl rfl hlen hm
      (by simp [initialState])⟩

/-- Witness for C5: the initial state of a consistent session satisfies the
invariant, and a concrete matched-to-unmatched cycle clears the overlay. -/
theorem claim_c5_overlay_invariant_witness :
    (AREnv.consistent ⟨descriptorsOf [⟨some 1, "Alice", "Mom", some [0]⟩],
        [⟨some 1, "Alice", "Mom", some [0]⟩], fun _ => none⟩ ∧
      overlayInvariant initialState) ∧
    (∃ st', recognizeStep ⟨[⟨1, [1]⟩], [], fun _ => none⟩
        { initialState with lastMatchedId := some 7 }
        (some ⟨(0, 0), some [0]⟩) = .ok st' ∧
      st'.lastMatchedId = none ∧ st'.detectedPerson = none) := by
  have hm : findBestMatch [(0 : ℝ)] [⟨1, [1]⟩] = .ok none := by
    rw [findBestMatch_single (q := [(0 : ℝ)]) (d := [1]) (i := 1) rfl,
      similarityScore_zero_one]
    norm_num [MATCH_THRESHOLD]
  have hstep : recognizeStep ⟨[⟨1, [1]⟩], [], fun _ => none⟩
      { initialState with lastMatchedId := some 7 }
      (some ⟨(0, 0), some [0]⟩) = .ok
      { initialState with
        targetPos := (min ((0 : ℝ) + 8) 85, max ((0 : ℝ) - 5) 10),
        isTracking := true, recognitionStatus := "Unknown face",
        lastMatchedId := none, detectedPerson := none } := by
    rw [recognizeStep_unknown_eq rfl (by simp) hm,
      if_pos (show ({ initialState with
        lastMatchedId := some 7 } : ARState).lastMatchedId ≠ none by simp)]
  exact ⟨⟨rfl, claim_c5_overlay_invariant.1
      ⟨descriptorsOf [⟨some 1, "Alice", "Mom", some [0]⟩],
        [⟨some 1, "Alice", "Mom", some [0]⟩], fun _ => none⟩
      initialState rfl Reachable.init⟩,
    ⟨_, hstep, rfl, claim_c5_overlay_invariant.2 _ _ _ _ hstep (by simp) rfl⟩⟩

/-! ## Claim theorems: the summarizer -/

/-- C9: every summarizer failure — missing API key, a thrown network error,
HTTP 429 rate limiting, any non-OK response, or an unextractable response
body — is absorbed and replaced by the deterministic local fallback summary
of the input text; `summarizeConversation` is a total function, so no error
propagates to the caller. -/
theorem claim_c9_fallback :
    ∀ (apiKey : Option String) (outcome : FetchOutcome) (text : String),
      summarizeFails apiKey outcome →
      summarizeConversation apiKey outcome text = createFallbackSummary text := by
  intro apiKey outcome text hfail
  rcases hfail with hkey | hthrow | ⟨status, ok, extracted, hresp, hcase⟩
  · simp [summarizeConversation, hkey]
  · subst hthrow
    by_cases hkey : keyMissing apiKey = true
    · simp [summarizeConversation, hkey]
    · simp [summarizeConversation, hkey]
  · subst hresp
    by_cases hkey : keyMissing apiKey = true
    · simp [summarizeConversation, hkey]
    · rcases hcase with h429 | hok | hnone
      · simp [summarizeConversation, hkey, h429]
      · subst hok
        by_cases h429 : status = 429
        · simp [summarizeConversation, hkey, h429]
        · simp [summarizeConversation, hkey, h429]
      · subst hnone
        by_cases h429 : status = 429
        · simp [summarizeConversation, hkey, h429]
        · by_cases hok2 : ok
          · simp [summarizeConversation, hkey, h429, hok2]
          · simp [summarizeConversation, hkey, h429, hok2]

/-- Witness for C9: a rate-limited (HTTP 429) call with a configured key
falls back to the local summary. -/
theorem claim_c9_fallback_witness :
    summarizeFails (some ("key")) (.resp 429 true (some ("body"))) ∧
    summarizeConversation (some ("key")) (.resp 429 true (some ("body")))
        ("hello world friend") =
      createFallbackSummary ("hello world friend") := by
  have hfail : summarizeFails (some ("key")) (.resp 429 true (some ("body"))) :=
    Or.inr (Or.inr ⟨429, true, some ("body"), rfl, Or.inl rfl⟩)
  exact ⟨hfail, claim_c9_fallback _ _ _ hfail⟩

end DementiaAR
